import Mathlib

/-!
Shallow embedding of the manifest builder in `py_gen_config2.py` of the
html-tools repository, together with proofs of the specified properties.

The builder walks a `pages/` directory tree, parses each `.html` file with
BeautifulSoup, extracts metadata from `<meta>` tags, filters by a `show`
visibility flag, and accumulates the resulting records into a module-level
`tools` list.

Modelling choices (all documented at the definition they concern):
* A parsed HTML document is modelled by the queries the code performs on it:
  the title element (with its BeautifulSoup `.string` value, which is `None`
  for an element without a single text child) and the ordered list of
  `<meta>` tags, each carrying its `name` and an optional `content`
  attribute (`none` models a missing `content` attribute, on which the
  subscript `tag["content"]` raises `KeyError`).
* Python exceptions (`KeyError` from a missing attribute, `ValueError` from
  `int()` on a non-numeric string) are modelled with `Except PyError`.
* The filesystem is a tree of named entries; `os.walk` top-down order is
  files of a directory first, then each subdirectory recursively, in list
  order.  A missing root is modelled by `Option`: `os.walk` with its default
  `onerror=None` silently ignores the initial `scandir` failure and yields
  nothing.
-/

namespace HtmlTools

/-- Python exceptions raised by the extraction code: `KeyError` from
`tag["content"]` when the attribute is missing, `ValueError` from `int()`
on a non-numeric string. -/
inductive PyError where
  | keyError
  | valueError
  deriving Repr, DecidableEq

/-- A parsed HTML document, modelled by exactly the queries
`parse_html_config` performs on the BeautifulSoup object:

* `titleTag`: `none` when the document has no `<title>` element;
  `some s` when it has one, where `s` is BeautifulSoup's `soup.title.string`
  (`none` models Python `None`, which `.string` returns for a title element
  that does not contain a single text child, e.g. `<title></title>`).
  A present tag is always truthy in BeautifulSoup, even when empty.
* `metas`: the document's `<meta>` tags in order, each as its `name`
  attribute together with its optional `content` attribute (`none` models a
  missing `content` attribute). -/
structure HtmlDoc where
  titleTag : Option (Option String)
  metas : List (String × Option String)
  deriving Repr, DecidableEq

/-- `soup.find("meta", attrs={"name": n})`: the first `<meta>` tag whose
`name` attribute is exactly `n`; the result carries the tag's optional
`content` attribute.  `none` models BeautifulSoup returning `None`. -/
def findMeta (n : String) (doc : HtmlDoc) : Option (Option String) :=
  (doc.metas.find? (fun m => m.1 = n)).map (fun m => m.2)

/-- The Python pattern `tag["content"] if tag else dflt` as a value:
`none` result models the `KeyError` raised by `tag["content"]` when the tag
was found but has no `content` attribute; a missing tag yields the default. -/
def contentD (m : Option (Option String)) (dflt : String) : Option String :=
  match m with
  | none => some dflt
  | some none => none
  | some (some c) => some c

/-- Python `s.endswith(suffix)`: used only for the `.html` filter of the
walk.  (Defined on character lists so that proofs and witnesses can
evaluate it inside the kernel.) -/
def pyEndsWith (s suffix : String) : Bool :=
  List.isSuffixOf suffix.data s.data

/-- Python `str.split(sep)` for a single-character separator, on the
character list: splitting keeps empty pieces and the empty string yields
`[[]]` (one empty piece), exactly as in Python. -/
def splitAux (sep : Char) : List Char → List (List Char)
  | [] => [[]]
  | c :: rest =>
    match splitAux sep rest with
    | [] => [[]]
    | h :: t => if c = sep then [] :: h :: t else (c :: h) :: t

/-- Python `s.split(sep)` for a single-character separator `sep`:
`"a,b".split(",") = ["a","b"]`, `"".split(",") = [""]`. -/
def pySplit (sep : Char) (s : String) : List String :=
  (splitAux sep s.data).map (fun l => String.mk l)

/-- The full-width comma `，` (U+FF0C) on which the `features` meta content
is split (`features.split("，")` in the source). -/
def fwComma : Char := '，'

/-- `os.path.basename` for the POSIX paths `os.path.join` builds here:
the last `/`-separated component. -/
def pyBasename (p : String) : String :=
  (pySplit '/' p).getLastD p

/-- Python `int(s)` on a decimal string: surrounding whitespace is
stripped, an optional single `+`/`-` sign is allowed, and the remainder
must be one or more decimal digits; anything else raises `ValueError`.
(Underscore digit grouping, non-ASCII digits and other bases accepted by
CPython are not exercised by this program's inputs and are not modelled.) -/
def pyInt (s : String) : Except PyError Int :=
  let cs := ((s.data.dropWhile Char.isWhitespace).reverse.dropWhile Char.isWhitespace).reverse
  let signed : Int × List Char :=
    match cs with
    | '-' :: rest => (-1, rest)
    | '+' :: rest => (1, rest)
    | _ => (1, cs)
  if signed.2 ≠ [] ∧ signed.2.all Char.isDigit then
    .ok (signed.1 * (signed.2.foldl (fun a c => a * 10 + (c.toNat - 48)) 0 : Nat))
  else
    .error .valueError

/-- One record of the generated manifest (`config` dict in
`parse_html_config`), with the seven fields in the source's construction.
`title : Option String` because the Python value can be `None` (BeautifulSoup
`.string` of an empty title element); `some s` models the string `s`. -/
structure ToolEntry where
  icon : String
  title : Option String
  keywords : String
  features : List String
  description : String
  url : String
  rank : Int
  deriving Repr, DecidableEq

/-- The title computation of `parse_html_config` (lines 47-48):
`title = soup.title.string if soup.title else file_name.split(".")[0]`,
with `file_name = os.path.basename(file_path)`.  Note `split(".")[0]` is
everything before the FIRST dot of the file name, and `soup.title.string`
may be Python `None`. -/
def titleOf (file_path : String) (doc : HtmlDoc) : Option String :=
  match doc.titleTag with
  | some s => s
  | none => some ((pySplit '.' (pyBasename file_path)).headD "")

/-- The rank computation of `parse_html_config` (lines 68-69):
`rank = int(rank["content"]) if rank else 0`.  A `rank` meta tag without a
`content` attribute raises `KeyError`; non-numeric content raises
`ValueError` from `int()`. -/
def rankOf (doc : HtmlDoc) : Except PyError Int :=
  match findMeta "rank" doc with
  | none => .ok 0
  | some none => .error .keyError
  | some (some c) => pyInt c

/-- The field extraction of `parse_html_config` after the visibility gate
has passed (lines 46-80): keywords, description, icon and features each
follow the `tag["content"] if tag else ""` pattern (a tag present without
`content` raises `KeyError`, modelled by the `contentD … = none` fallthrough
arm), features content is split on the full-width comma, rank is parsed
last (so an earlier `KeyError` wins over a rank failure, as in the
sequential Python code), and `url` is the file path as discovered. -/
def extractFields (file_path : String) (doc : HtmlDoc) : Except PyError ToolEntry :=
  match contentD (findMeta "keywords" doc) "" with
  | none => .error .keyError
  | some kw =>
    match contentD (findMeta "description" doc) "" with
    | none => .error .keyError
    | some de =>
      match contentD (findMeta "icon" doc) "" with
      | none => .error .keyError
      | some ic =>
        match contentD (findMeta "features" doc) "" with
        | none => .error .keyError
        | some fe =>
          match rankOf doc with
          | .error e => .error e
          | .ok rk =>
              .ok { icon := ic, title := titleOf file_path doc, keywords := kw,
                    features := pySplit fwComma fe, description := de,
                    url := file_path, rank := rk }

/-- `parse_html_config(file_path)` (lines 34-80) applied to the already
parsed document: the visibility gate first
(`show = show["content"] if show else "false"; if show == "false": return None`),
then field extraction.  `Except` models uncaught Python exceptions,
`Option` models the `None` / `config` result. -/
def parse_html_config (file_path : String) (doc : HtmlDoc) :
    Except PyError (Option ToolEntry) :=
  match findMeta "show" doc with
  | none => .ok none
  | some none => .error .keyError
  | some (some c) =>
    if c = "false" then .ok none
    else (extractFields file_path doc).map some

/-- The visibility gate as a predicate: the `show` meta tag is present,
carries a `content` attribute, and that content is not the literal string
`"false"`. -/
def gatePass (doc : HtmlDoc) : Bool :=
  match findMeta "show" doc with
  | some (some c) => c ≠ "false"
  | _ => false

/-- One entry of the scanned directory tree: a file (with its name and its
parsed content — only files whose name ends in `.html` are ever opened) or
a subdirectory with its own entries, in `os.listdir` order. -/
inductive FsEntry where
  | file (name : String) (doc : HtmlDoc)
  | dir (name : String) (children : List FsEntry)
  deriving Repr

/-- `os.path.join` for the relative POSIX paths built by the walk. -/
def osJoin (a b : String) : String :=
  if a = "" then b else a ++ "/" ++ b

/-- The `.html` files directly inside one directory (the
`for file in files: if file.endswith(".html")` body of `get_html_files`),
paired with their `os.path.join(root, file)` paths. -/
def filesPart (root : String) : List FsEntry → List (String × HtmlDoc)
  | [] => []
  | .file n d :: rest =>
    (if pyEndsWith n ".html" then [(osJoin root n, d)] else []) ++ filesPart root rest
  | .dir _ _ :: rest => filesPart root rest

/-- The `.html` files found by descending into each subdirectory, in order:
`os.walk` is top-down, so each subdirectory contributes its own files first
and then its subdirectories recursively. -/
def dirsPart (root : String) : List FsEntry → List (String × HtmlDoc)
  | [] => []
  | .file _ _ :: rest => dirsPart root rest
  | .dir n cs :: rest =>
    (filesPart (osJoin root n) cs ++ dirsPart (osJoin root n) cs) ++ dirsPart root rest

/-- The file list produced by walking the entries of a directory at path
`root`: `os.walk` yields the triple for `root` itself first (all its
`.html` files in `os.listdir` order), then walks each subdirectory. -/
def get_html_files_from (root : String) (es : List FsEntry) : List (String × HtmlDoc) :=
  filesPart root es ++ dirsPart root es

/-- `get_html_files(directory)` (lines 15-31).  `fs` is the children of
`directory`, or `none` when `directory` does not exist.  On a missing
directory `os.walk` with its default `onerror=None` silently ignores the
initial `scandir` failure and yields no triples, so the function returns
the empty list rather than raising. -/
def get_html_files (directory : String) (fs : Option (List FsEntry)) :
    Except PyError (List (String × HtmlDoc)) :=
  match fs with
  | none => .ok []
  | some es => .ok (get_html_files_from directory es)

/-- The per-file loop of `gen_config` (lines 89-92) over an already
discovered file list: parse each file in order, append the non-`None`
configs, and let the first uncaught exception abort the whole loop. -/
def parse_all : List (String × HtmlDoc) → Except PyError (List ToolEntry)
  | [] => .ok []
  | (p, d) :: rest => do
    let c ← parse_html_config p d
    let cs ← parse_all rest
    match c with
    | none => pure cs
    | some e => pure (e :: cs)

/-- `gen_config()` (lines 83-94).  The source appends into the module-level
`tools` list (line 11) and returns it inside `configs`; that mutable global
is modelled by explicit state passing: `tools` is the list's value before
the call and the result is its value after.  The scan root is the literal
`"pages"`; `fs` is that directory's contents (`none` when it is missing). -/
def gen_config (tools : List ToolEntry) (fs : Option (List FsEntry)) :
    Except PyError (List ToolEntry) := do
  let html_files ← get_html_files "pages" fs
  let new ← parse_all html_files
  return tools ++ new

/-! ### Helper lemmas -/

/-- Python `split` never returns an empty list of pieces. -/
theorem splitAux_ne_nil (sep : Char) (l : List Char) : splitAux sep l ≠ [] := by
  induction l with
  | nil => simp [splitAux]
  | cons c rest ih =>
    rw [splitAux]
    cases hr : splitAux sep rest with
    | nil => simp
    | cons hh tt => by_cases hc : c = sep <;> simp [hc]

/-- `pySplit` never returns the empty list: even `""` splits into `[""]`. -/
theorem pySplit_ne_nil (sep : Char) (s : String) : pySplit sep s ≠ [] := by
  intro h
  exact splitAux_ne_nil sep s.data (by simpa [pySplit] using h)

/-- A file without a `show` meta tag is excluded (`show` defaults to the
string `"false"` and the function returns `None`). -/
theorem parse_gate_absent {p : String} {doc : HtmlDoc}
    (h : findMeta "show" doc = none) : parse_html_config p doc = .ok none := by
  simp [parse_html_config, h]

/-- A file whose `show` meta content is exactly `"false"` is excluded. -/
theorem parse_gate_false {p : String} {doc : HtmlDoc}
    (h : findMeta "show" doc = some (some "false")) :
    parse_html_config p doc = .ok none := by
  simp [parse_html_config, h]

/-- A `show` meta tag without a `content` attribute makes `show["content"]`
raise `KeyError` before anything else happens. -/
theorem parse_show_noContent {p : String} {doc : HtmlDoc}
    (h : findMeta "show" doc = some none) :
    parse_html_config p doc = .error .keyError := by
  simp [parse_html_config, h]

/-- When the gate passes, `parse_html_config` is field extraction. -/
theorem parse_gate_open {p : String} {doc : HtmlDoc} {c : String}
    (hs : findMeta "show" doc = some (some c)) (hc : c ≠ "false") :
    parse_html_config p doc = (extractFields p doc).map some := by
  simp [parse_html_config, hs, hc]

/-- A successful `Some` result means the gate passed and extraction
succeeded with that entry. -/
theorem parse_ok_some_extract {p : String} {doc : HtmlDoc} {e : ToolEntry}
    (h : parse_html_config p doc = .ok (some e)) :
    gatePass doc = true ∧ extractFields p doc = .ok e := by
  cases hs : findMeta "show" doc with
  | none => rw [parse_gate_absent hs] at h; simp at h
  | some o =>
    cases o with
    | none => rw [parse_show_noContent hs] at h; simp at h
    | some c =>
      by_cases hc : c = "false"
      · subst hc; rw [parse_gate_false hs] at h; simp at h
      · rw [parse_gate_open hs hc] at h
        cases he : extractFields p doc with
        | error err => rw [he] at h; simp [Except.map] at h
        | ok a =>
          rw [he] at h
          simp only [Except.map, Except.ok.injEq, Option.some.injEq] at h
          subst h
          exact ⟨by simp [gatePass, hs, hc], rfl⟩

/-- On any non-exceptional result, an entry is produced exactly when the
visibility gate passes. -/
theorem parse_ok_isSome {p : String} {doc : HtmlDoc} {r : Option ToolEntry}
    (h : parse_html_config p doc = .ok r) : r.isSome = gatePass doc := by
  cases hs : findMeta "show" doc with
  | none =>
    rw [parse_gate_absent hs] at h
    simp only [Except.ok.injEq] at h
    subst h
    simp [gatePass, hs]
  | some o =>
    cases o with
    | none => rw [parse_show_noContent hs] at h; simp at h
    | some c =>
      by_cases hc : c = "false"
      · subst hc
        rw [parse_gate_false hs] at h
        simp only [Except.ok.injEq] at h
        subst h
        simp [gatePass, hs]
      · rw [parse_gate_open hs hc] at h
        cases he : extractFields p doc with
        | error err => rw [he] at h; simp [Except.map] at h
        | ok a =>
          rw [he] at h
          simp only [Except.map, Except.ok.injEq] at h
          subst h
          simp [gatePass, hs, hc]

/-- Shape of a successfully extracted entry: every field comes from the
corresponding meta lookup, the url is the file path, the title is
`titleOf`. -/
theorem extract_ok_shape {p : String} {doc : HtmlDoc} {e : ToolEntry}
    (h : extractFields p doc = .ok e) :
    ∃ kw de ic fe rk,
      contentD (findMeta "keywords" doc) "" = some kw ∧
      contentD (findMeta "description" doc) "" = some de ∧
      contentD (findMeta "icon" doc) "" = some ic ∧
      contentD (findMeta "features" doc) "" = some fe ∧
      rankOf doc = .ok rk ∧
      e = { icon := ic, title := titleOf p doc, keywords := kw,
            features := pySplit fwComma fe, description := de,
            url := p, rank := rk } := by
  unfold extractFields at h
  cases hk : contentD (findMeta "keywords" doc) "" with
  | none => rw [hk] at h; simp at h
  | some kw =>
    rw [hk] at h
    cases hd : contentD (findMeta "description" doc) "" with
    | none => rw [hd] at h; simp at h
    | some de =>
      rw [hd] at h
      cases hi : contentD (findMeta "icon" doc) "" with
      | none => rw [hi] at h; simp at h
      | some ic =>
        rw [hi] at h
        cases hf : contentD (findMeta "features" doc) "" with
        | none => rw [hf] at h; simp at h
        | some fe =>
          rw [hf] at h
          cases hr : rankOf doc with
          | error err => rw [hr] at h; simp at h
          | ok rk =>
            rw [hr] at h
            simp only [Except.ok.injEq] at h
            exact ⟨kw, de, ic, fe, rk, rfl, rfl, rfl, rfl, rfl, h.symm⟩

/-- The url of a produced entry is the discovered file path. -/
theorem parse_ok_some_url {p : String} {doc : HtmlDoc} {e : ToolEntry}
    (h : parse_html_config p doc = .ok (some e)) : e.url = p := by
  obtain ⟨-, he⟩ := parse_ok_some_extract h
  obtain ⟨kw, de, ic, fe, rk, -, -, -, -, -, hshape⟩ := extract_ok_shape he
  rw [hshape]

/-- The title of a produced entry is exactly `titleOf`. -/
theorem parse_ok_some_title {p : String} {doc : HtmlDoc} {e : ToolEntry}
    (h : parse_html_config p doc = .ok (some e)) : e.title = titleOf p doc := by
  obtain ⟨-, he⟩ := parse_ok_some_extract h
  obtain ⟨kw, de, ic, fe, rk, -, -, -, -, -, hshape⟩ := extract_ok_shape he
  rw [hshape]

/-- The features of a produced entry are the split of the features meta
content (default empty string). -/
theorem parse_ok_some_features {p : String} {doc : HtmlDoc} {e : ToolEntry}
    (h : parse_html_config p doc = .ok (some e)) :
    ∃ fe, contentD (findMeta "features" doc) "" = some fe ∧
      e.features = pySplit fwComma fe := by
  obtain ⟨-, he⟩ := parse_ok_some_extract h
  obtain ⟨kw, de, ic, fe, rk, -, -, -, hf, -, hshape⟩ := extract_ok_shape he
  exact ⟨fe, hf, by rw [hshape]⟩

/-- The rank of a produced entry satisfies the rank computation. -/
theorem parse_ok_some_rank {p : String} {doc : HtmlDoc} {e : ToolEntry}
    (h : parse_html_config p doc = .ok (some e)) : rankOf doc = .ok e.rank := by
  obtain ⟨-, he⟩ := parse_ok_some_extract h
  obtain ⟨kw, de, ic, fe, rk, -, -, -, -, hr, hshape⟩ := extract_ok_shape he
  rw [hshape]; exact hr

/-- The icon of a produced entry is the icon meta content (default `""`). -/
theorem parse_ok_some_icon {p : String} {doc : HtmlDoc} {e : ToolEntry}
    (h : parse_html_config p doc = .ok (some e)) :
    contentD (findMeta "icon" doc) "" = some e.icon := by
  obtain ⟨-, he⟩ := parse_ok_some_extract h
  obtain ⟨kw, de, ic, fe, rk, -, -, hi, -, -, hshape⟩ := extract_ok_shape he
  rw [hshape]; exact hi

/-- Over a successfully processed file list, the urls of the produced
entries are exactly the paths of the gate-passing files, in order. -/
theorem parse_all_urls {files : List (String × HtmlDoc)} {ts : List ToolEntry}
    (h : parse_all files = .ok ts) :
    ts.map ToolEntry.url = (files.filter (fun fd => gatePass fd.2)).map Prod.fst := by
  induction files generalizing ts with
  | nil =>
    have h' : Except.ok ([] : List ToolEntry) = Except.ok ts := h
    cases h'
    simp
  | cons fd rest ih =>
    obtain ⟨p, d⟩ := fd
    cases hc : parse_html_config p d with
    | error err =>
      have h' : parse_all ((p, d) :: rest) = .error err := by
        simp only [parse_all, hc]; rfl
      rw [h'] at h
      exact Except.noConfusion h
    | ok c =>
      cases hcs : parse_all rest with
      | error err =>
        have h' : parse_all ((p, d) :: rest) = .error err := by
          simp only [parse_all, hc, hcs]; rfl
        rw [h'] at h
        exact Except.noConfusion h
      | ok cs =>
        have hg := parse_ok_isSome hc
        cases c with
        | none =>
          have h' : parse_all ((p, d) :: rest) = .ok cs := by
            simp only [parse_all, hc, hcs]; rfl
          rw [h'] at h
          obtain rfl := Except.ok.inj h
          have hgf : gatePass d = false := by simpa using hg.symm
          simp [List.filter_cons, hgf, ih hcs]
        | some e =>
          have h' : parse_all ((p, d) :: rest) = .ok (e :: cs) := by
            simp only [parse_all, hc, hcs]; rfl
          rw [h'] at h
          obtain rfl := Except.ok.inj h
          have hgt : gatePass d = true := by simpa using hg.symm
          simp [List.filter_cons, hgt, ih hcs, parse_ok_some_url hc]

/-- The first failing file aborts the whole loop: if every earlier file
parses without an exception and one file raises, `parse_all` of the whole
list raises that exception. -/
theorem parse_all_error_append {pre : List (String × HtmlDoc)} {l : List ToolEntry}
    (hpre : parse_all pre = .ok l) {p : String} {doc : HtmlDoc} {err : PyError}
    (hbad : parse_html_config p doc = .error err) (post : List (String × HtmlDoc)) :
    parse_all (pre ++ (p, doc) :: post) = .error err := by
  induction pre generalizing l with
  | nil =>
    simp only [List.nil_append, parse_all, hbad]; rfl
  | cons fd rest ih =>
    obtain ⟨q, dq⟩ := fd
    cases hc : parse_html_config q dq with
    | error e2 =>
      have h' : parse_all ((q, dq) :: rest) = .error e2 := by
        simp only [parse_all, hc]; rfl
      rw [h'] at hpre
      exact Except.noConfusion hpre
    | ok c =>
      cases hcs : parse_all rest with
      | error e2 =>
        have h' : parse_all ((q, dq) :: rest) = .error e2 := by
          simp only [parse_all, hc, hcs]; rfl
        rw [h'] at hpre
        exact Except.noConfusion hpre
      | ok cs =>
        have hrec := ih hcs
        simp only [List.cons_append, parse_all, hc, List.append_eq, hrec]
        rfl

/-- `gen_config` on an existing tree is the per-file loop over the walked
file list, appended after the incoming `tools` state. -/
theorem gen_config_eq (t : List ToolEntry) (es : List FsEntry) :
    gen_config t (some es) =
      Except.map (fun l => t ++ l) (parse_all (get_html_files_from "pages" es)) := by
  have h0 : gen_config t (some es) =
      Except.bind (parse_all (get_html_files_from "pages" es))
        (fun new => .ok (t ++ new)) := rfl
  cases hp : parse_all (get_html_files_from "pages" es) with
  | error e => rw [h0, hp]; rfl
  | ok l => rw [h0, hp]; rfl

/-- `gen_config` on a missing `pages` directory completes and leaves the
`tools` state unchanged. -/
theorem gen_config_none (t : List ToolEntry) : gen_config t none = .ok t := by
  have h0 : gen_config t none = .ok (t ++ []) := rfl
  rw [h0, List.append_nil]

/-! ### Claims -/

/-- C1: inclusion is governed solely by the visibility gate.  A file whose
`show` meta tag is absent, or present with content exactly `"false"`,
yields `None` (no entry); and on every non-exceptional extraction result an
entry is produced exactly when the `show` meta tag is present with a
content attribute different from `"false"`. -/
theorem claim_c1 (p : String) (doc : HtmlDoc) :
    ((findMeta "show" doc = none ∨ findMeta "show" doc = some (some "false")) →
      parse_html_config p doc = .ok none) ∧
    (∀ r, parse_html_config p doc = .ok r → r.isSome = gatePass doc) := by
  constructor
  · rintro (h | h)
    · exact parse_gate_absent h
    · exact parse_gate_false h
  · intro r h
    exact parse_ok_isSome h

/-- Witness for C1: a file without the tag and a file with `show="false"`
produce no entry; a file with `show="true"` produces one. -/
theorem claim_c1_witness :
    parse_html_config "pages/a.html" ⟨none, []⟩ = .ok none ∧
    parse_html_config "pages/b.html" ⟨none, [("show", some "false")]⟩ = .ok none ∧
    Option.isSome
        (some (⟨"", some "b", "", [""], "", "pages/b.html", 0⟩ : ToolEntry)) =
      gatePass ⟨none, [("show", some "true")]⟩ := by
  refine ⟨(claim_c1 "pages/a.html" ⟨none, []⟩).1 (Or.inl rfl),
    (claim_c1 "pages/b.html" ⟨none, [("show", some "false")]⟩).1 (Or.inr rfl),
    (claim_c1 "pages/b.html" ⟨none, [("show", some "true")]⟩).2
      (some ⟨"", some "b", "", [""], "", "pages/b.html", 0⟩) rfl⟩

/-- C5: end-to-end, the file `pages/tools/x.html` with
`<title>X</title><meta name="show" content="true"><meta name="rank" content="5">`
and no other meta tags yields exactly the one manifest entry
`{icon:"", title:"X", keywords:"", features:[""], description:"",
url:"pages/tools/x.html", rank:5}`. -/
theorem claim_c5 :
    gen_config [] (some [.dir "tools" [.file "x.html"
        ⟨some (some "X"), [("show", some "true"), ("rank", some "5")]⟩]]) =
      .ok [{ icon := "", title := some "X", keywords := "", features := [""],
             description := "", url := "pages/tools/x.html", rank := 5 }] := by
  simp only [gen_config, get_html_files, get_html_files_from, filesPart, dirsPart]
  rfl

/-- C7: for an included file, an absent `rank` meta tag yields rank 0 and
an absent `icon` meta tag yields icon `""`. -/
theorem claim_c7 {p : String} {doc : HtmlDoc} {e : ToolEntry}
    (h : parse_html_config p doc = .ok (some e)) :
    (findMeta "rank" doc = none → e.rank = 0) ∧
    (findMeta "icon" doc = none → e.icon = "") := by
  constructor
  · intro hr
    have hro := parse_ok_some_rank h
    rw [rankOf, hr] at hro
    exact (Except.ok.inj hro).symm
  · intro hi
    have hio := parse_ok_some_icon h
    rw [hi] at hio
    simpa [contentD] using hio.symm

/-- Witness for C7: a file with `show="true"` and no other meta tags gets
rank 0 and icon `""`. -/
theorem claim_c7_witness :
    (⟨"", some "w", "", [""], "", "pages/w.html", 0⟩ : ToolEntry).rank = 0 ∧
    (⟨"", some "w", "", [""], "", "pages/w.html", 0⟩ : ToolEntry).icon = "" := by
  refine ⟨?_, ?_⟩
  · exact (@claim_c7 "pages/w.html" ⟨none, [("show", some "true")]⟩ _ rfl).1 rfl
  · exact (@claim_c7 "pages/w.html" ⟨none, [("show", some "true")]⟩ _ rfl).2 rfl

/-- C9 counterexample: `get_html_files` applied to a missing root directory
returns the empty file list rather than raising — `os.walk` with its
default `onerror=None` silently swallows the `scandir` failure. -/
theorem claim_c9_counterexample :
    get_html_files "pages" none = .ok [] := rfl

/-- C9 amended: on a nonexistent root directory, `get_html_files` does not
fail: it returns the empty list (so a `gen_config` run over a missing
`pages` directory completes, leaving the `tools` accumulator unchanged).
The missing-directory error the spec describes is raised only by the
module-level `print(os.listdir("pages"))` statement, not by
`get_html_files`. -/
theorem claim_c9 (directory : String) (t : List ToolEntry) :
    get_html_files directory none = .ok [] ∧ gen_config t none = .ok t :=
  ⟨rfl, gen_config_none t⟩

/-- C10: a meta tag that is present but lacks a `content` attribute does
not get the documented default: the attribute lookup raises `KeyError` and
aborts extraction for that file — both for the `show` tag (looked up first)
and for the `rank` tag (looked up last, when no earlier lookup raised). -/
theorem claim_c10 {p : String} {doc : HtmlDoc} :
    (findMeta "show" doc = some none →
      parse_html_config p doc = .error .keyError) ∧
    (∀ c, findMeta "show" doc = some (some c) → c ≠ "false" →
      contentD (findMeta "keywords" doc) "" ≠ none →
      contentD (findMeta "description" doc) "" ≠ none →
      contentD (findMeta "icon" doc) "" ≠ none →
      contentD (findMeta "features" doc) "" ≠ none →
      findMeta "rank" doc = some none →
      parse_html_config p doc = .error .keyError) := by
  constructor
  · exact parse_show_noContent
  · intro c hs hc hk hd hi hf hr
    have hrank : rankOf doc = .error .keyError := by
      simp only [rankOf, hr]
    have hext : extractFields p doc = .error .keyError := by
      obtain ⟨kw, hk'⟩ := Option.ne_none_iff_exists'.mp hk
      obtain ⟨de, hd'⟩ := Option.ne_none_iff_exists'.mp hd
      obtain ⟨ic, hi'⟩ := Option.ne_none_iff_exists'.mp hi
      obtain ⟨fe, hf'⟩ := Option.ne_none_iff_exists'.mp hf
      simp only [extractFields, hk', hd', hi', hf', hrank]
    rw [parse_gate_open hs hc, hext]
    rfl

/-- Witness for C10: a `show` tag with no `content` attribute, and a
`rank` tag with no `content` attribute on an otherwise well-formed visible
file, both end in `KeyError`. -/
theorem claim_c10_witness :
    parse_html_config "pages/k.html" ⟨none, [("show", none)]⟩ =
      .error .keyError ∧
    parse_html_config "pages/k.html"
        ⟨none, [("show", some "true"), ("rank", none)]⟩ =
      .error .keyError := by
  refine ⟨(@claim_c10 "pages/k.html" ⟨none, [("show", none)]⟩).1 rfl, ?_⟩
  exact (@claim_c10 "pages/k.html"
      ⟨none, [("show", some "true"), ("rank", none)]⟩).2
    "true" rfl (by decide) (by decide) (by decide) (by decide) (by decide) rfl

/-- C2 counterexample: invoking `gen_config` a second time in the same
process does NOT yield the same `tools` sequence — it appends into the
module-level `tools` list again, duplicating every entry. -/
theorem claim_c2_counterexample :
    gen_config [] (some [.file "a.html" ⟨some (some "A"), [("show", some "true")]⟩]) =
      .ok [⟨"", some "A", "", [""], "", "pages/a.html", 0⟩] ∧
    gen_config [⟨"", some "A", "", [""], "", "pages/a.html", 0⟩]
        (some [.file "a.html" ⟨some (some "A"), [("show", some "true")]⟩]) =
      .ok [⟨"", some "A", "", [""], "", "pages/a.html", 0⟩,
           ⟨"", some "A", "", [""], "", "pages/a.html", 0⟩] ∧
    [(⟨"", some "A", "", [""], "", "pages/a.html", 0⟩ : ToolEntry),
      ⟨"", some "A", "", [""], "", "pages/a.html", 0⟩] ≠
      [⟨"", some "A", "", [""], "", "pages/a.html", 0⟩] := by
  refine ⟨?_, ?_, by simp⟩
  · simp only [gen_config, get_html_files, get_html_files_from, filesPart, dirsPart]
    rfl
  · simp only [gen_config, get_html_files, get_html_files_from, filesPart, dirsPart]
    rfl

/-- C2 amended: the builder is deterministic, so two runs from a fresh
process (fresh module state) give identical output on a stable traversal;
but a second in-process invocation of `gen_config` appends the entries to
the still-populated global `tools` list: it returns the first run's list
concatenated with itself, not the first run's list. -/
theorem claim_c2 {fs : Option (List FsEntry)} {e : List ToolEntry}
    (h : gen_config [] fs = .ok e) : gen_config e fs = .ok (e ++ e) := by
  cases fs with
  | none =>
    rw [gen_config_none] at h
    obtain rfl := Except.ok.inj h
    simpa using gen_config_none ([] : List ToolEntry)
  | some es =>
    rw [gen_config_eq] at h
    cases hp : parse_all (get_html_files_from "pages" es) with
    | error err => rw [hp] at h; exact Except.noConfusion h
    | ok l =>
      rw [hp] at h
      simp only [Except.map, Except.ok.injEq, List.nil_append] at h
      subst h
      rw [gen_config_eq, hp]
      rfl

/-- Witness for C2 amended: the second in-process invocation on the
one-file tree returns the duplicated list. -/
theorem claim_c2_witness :
    gen_config [⟨"", some "A", "", [""], "", "pages/a.html", 0⟩]
        (some [.file "a.html" ⟨some (some "A"), [("show", some "true")]⟩]) =
      .ok ([⟨"", some "A", "", [""], "", "pages/a.html", 0⟩] ++
           [⟨"", some "A", "", [""], "", "pages/a.html", 0⟩]) :=
  claim_c2 (by
    simp only [gen_config, get_html_files, get_html_files_from, filesPart, dirsPart]
    rfl)

/-- C3 counterexample: a file named `my.tool.html` with no title element
gets title `"my"`, not `"my.tool"` — `file_name.split(".")[0]` keeps only
the part before the FIRST dot, it does not merely strip the extension. -/
theorem claim_c3_counterexample :
    parse_html_config "pages/my.tool.html" ⟨none, [("show", some "true")]⟩ =
      .ok (some ⟨"", some "my", "", [""], "", "pages/my.tool.html", 0⟩) ∧
    (some "my" : Option String) ≠ some "my.tool" := by
  exact ⟨rfl, by decide⟩

/-- C3 amended: for an included file the title is the title element's
BeautifulSoup string whenever a title element is present (so an EMPTY
title element yields Python `None`, not the empty string), and only when
the document has no title element at all does it fall back — to the
portion of the file's base name before the first dot (so `my.tool.html`
yields `"my"`). -/
theorem claim_c3 {p : String} {doc : HtmlDoc} {e : ToolEntry}
    (h : parse_html_config p doc = .ok (some e)) :
    (∀ s, doc.titleTag = some s → e.title = s) ∧
    (doc.titleTag = none →
      e.title = some ((pySplit '.' (pyBasename p)).headD "")) := by
  have ht := parse_ok_some_title h
  constructor
  · intro s hs
    rw [ht]
    simp only [titleOf, hs]
  · intro hs
    rw [ht]
    simp only [titleOf, hs]

/-- Witness for C3 amended: an empty title element stays `None`; a missing
title element on `my.tool.html` falls back to `"my"`. -/
theorem claim_c3_witness :
    (⟨"", none, "", [""], "", "pages/t.html", 0⟩ : ToolEntry).title = none ∧
    (⟨"", some "my", "", [""], "", "pages/my.tool.html", 0⟩ : ToolEntry).title =
      some ((pySplit '.' (pyBasename "pages/my.tool.html")).headD "") := by
  refine ⟨?_, ?_⟩
  · exact (@claim_c3 "pages/t.html" ⟨some none, [("show", some "true")]⟩
      _ rfl).1 none rfl
  · exact (@claim_c3 "pages/my.tool.html" ⟨none, [("show", some "true")]⟩
      _ rfl).2 rfl

/-- C4: on a successful run from a fresh state, the produced entries
correspond one-to-one, in traversal order, to the discovered `.html` files
that pass the visibility gate, and each entry's `url` is exactly that
file's path from the scan root. -/
theorem claim_c4 {es : List FsEntry} {ts : List ToolEntry}
    (h : gen_config [] (some es) = .ok ts) :
    ts.map ToolEntry.url =
      ((get_html_files_from "pages" es).filter
        (fun fd => gatePass fd.2)).map Prod.fst := by
  rw [gen_config_eq] at h
  cases hp : parse_all (get_html_files_from "pages" es) with
  | error err => rw [hp] at h; exact Except.noConfusion h
  | ok l =>
    rw [hp] at h
    simp only [Except.map, Except.ok.injEq, List.nil_append] at h
    subst h
    exact parse_all_urls hp

/-- Witness for C4: a tree with one visible file, one hidden file, one
non-HTML file and one visible file in a subdirectory yields exactly the
urls of the two visible files. -/
theorem claim_c4_witness :
    ([⟨"", some "A", "", [""], "", "pages/a.html", 0⟩,
      ⟨"", some "C", "", [""], "", "pages/sub/c.html", 7⟩] : List ToolEntry).map
        ToolEntry.url =
      ((get_html_files_from "pages"
          [.file "a.html" ⟨some (some "A"), [("show", some "yes")]⟩,
           .file "b.html" ⟨some (some "B"), []⟩,
           .file "n.txt" ⟨none, [("show", some "true")]⟩,
           .dir "sub" [.file "c.html"
             ⟨some (some "C"), [("show", some "true"), ("rank", some "7")]⟩]]).filter
        (fun fd => gatePass fd.2)).map Prod.fst :=
  claim_c4 (by
    simp only [gen_config, get_html_files, get_html_files_from, filesPart, dirsPart]
    rfl)

/-- C6: for every included file, `features` is the raw features meta
content split on the full-width comma with no trimming; an absent features
tag yields the single-element list `[""]`; the result is never the empty
list. -/
theorem claim_c6 {p : String} {doc : HtmlDoc} {e : ToolEntry}
    (h : parse_html_config p doc = .ok (some e)) :
    (∀ c, findMeta "features" doc = some (some c) →
      e.features = pySplit fwComma c) ∧
    (findMeta "features" doc = none → e.features = [""]) ∧
    e.features ≠ [] := by
  obtain ⟨fe, hfe, hsplit⟩ := parse_ok_some_features h
  refine ⟨?_, ?_, ?_⟩
  · intro c hc
    rw [hc] at hfe
    simp only [contentD, Option.some.injEq] at hfe
    rw [hsplit, hfe]
  · intro hc
    rw [hc] at hfe
    simp only [contentD, Option.some.injEq] at hfe
    rw [hsplit, ← hfe]
    rfl
  · rw [hsplit]
    exact pySplit_ne_nil _ _

/-- Witness for C6: content `"a，b，c"` yields `["a","b","c"]`, an absent
features tag yields `[""]`, and neither list is empty. -/
theorem claim_c6_witness :
    pySplit fwComma "a，b，c" = ["a", "b", "c"] ∧
    (⟨"", some "f", "", ["a", "b", "c"], "", "pages/f.html", 0⟩ :
      ToolEntry).features = pySplit fwComma "a，b，c" ∧
    (⟨"", some "g", "", [""], "", "pages/g.html", 0⟩ : ToolEntry).features =
      [""] ∧
    (⟨"", some "f", "", ["a", "b", "c"], "", "pages/f.html", 0⟩ :
      ToolEntry).features ≠ [] := by
  refine ⟨by decide, ?_, ?_, ?_⟩
  · exact (@claim_c6 "pages/f.html"
      ⟨none, [("show", some "true"), ("features", some "a，b，c")]⟩
      _ rfl).1 "a，b，c" rfl
  · exact (@claim_c6 "pages/g.html" ⟨none, [("show", some "true")]⟩
      _ rfl).2.1 rfl
  · exact (@claim_c6 "pages/f.html"
      ⟨none, [("show", some "true"), ("features", some "a，b，c")]⟩
      _ rfl).2.2

/-- C8: a gate-passing file whose `rank` meta content is non-numeric makes
extraction fail with `ValueError`, and the failure is not caught: with such
a file anywhere in the walked list (all files before it parsing cleanly),
the whole `gen_config` run aborts with `ValueError` and produces no
manifest. -/
theorem claim_c8 {p : String} {doc : HtmlDoc} {c rc : String}
    (hs : findMeta "show" doc = some (some c)) (hc : c ≠ "false")
    (hk : contentD (findMeta "keywords" doc) "" ≠ none)
    (hd : contentD (findMeta "description" doc) "" ≠ none)
    (hi : contentD (findMeta "icon" doc) "" ≠ none)
    (hf : contentD (findMeta "features" doc) "" ≠ none)
    (hr : findMeta "rank" doc = some (some rc))
    (hrc : pyInt rc = .error .valueError) :
    parse_html_config p doc = .error .valueError ∧
    (∀ pre post (l : List ToolEntry), parse_all pre = .ok l →
      parse_all (pre ++ (p, doc) :: post) = .error .valueError) ∧
    (∀ (t : List ToolEntry) (es : List FsEntry) pre post (l : List ToolEntry),
      get_html_files_from "pages" es = pre ++ (p, doc) :: post →
      parse_all pre = .ok l →
      gen_config t (some es) = .error .valueError) := by
  have hrank : rankOf doc = .error .valueError := by
    simp only [rankOf, hr]
    exact hrc
  have hext : extractFields p doc = .error .valueError := by
    obtain ⟨kw, hk'⟩ := Option.ne_none_iff_exists'.mp hk
    obtain ⟨de, hd'⟩ := Option.ne_none_iff_exists'.mp hd
    obtain ⟨ic, hi'⟩ := Option.ne_none_iff_exists'.mp hi
    obtain ⟨fe, hf'⟩ := Option.ne_none_iff_exists'.mp hf
    simp only [extractFields, hk', hd', hi', hf', hrank]
  have hparse : parse_html_config p doc = .error .valueError := by
    rw [parse_gate_open hs hc, hext]
    rfl
  refine ⟨hparse, fun pre post l hl => parse_all_error_append hl hparse post,
    fun t es pre post l hwalk hl => ?_⟩
  rw [gen_config_eq, hwalk, parse_all_error_append hl hparse post]
  rfl

/-- Witness for C8: a tree whose second file is visible with
`rank="oops"` makes the whole run abort with `ValueError`, although its
first file is perfectly fine. -/
theorem claim_c8_witness :
    gen_config []
        (some [.file "good.html" ⟨some (some "G"), [("show", some "true")]⟩,
               .file "bad.html"
                 ⟨some (some "B"), [("show", some "true"), ("rank", some "oops")]⟩]) =
      .error .valueError := by
  refine (@claim_c8 "pages/bad.html"
      ⟨some (some "B"), [("show", some "true"), ("rank", some "oops")]⟩
      "true" "oops" rfl (by decide) (by decide) (by decide)
      (by decide) (by decide) rfl rfl).2.2 []
      _ [("pages/good.html", ⟨some (some "G"), [("show", some "true")]⟩)] []
      [⟨"", some "G", "", [""], "", "pages/good.html", 0⟩] ?_ rfl
  simp only [get_html_files_from, filesPart, dirsPart]
  rfl

end HtmlTools
